import Mathlib

/-
  Verification development for the gadget-assisted generation system
  (repository: prompteus/gadgets).

  The visible source file, examples/train_gsm8k+aqua-deepspeed.py, is the
  orchestration script; the algorithmic core it drives (tokenizer vocabulary
  extension, Calculator gadget, gadget-aware decoding loop, dataset parsers,
  metrics aggregator) lives in the gadgets package described by the accompanying
  specification.  Components that are not present in the source tree are
  modelled from the specification text; components present in the script
  (argument registration, the partial-finetuning loops, the seeding calls)
  are embedded directly from the script.
-/

set_option maxRecDepth 4096

deriving instance DecidableEq for Except

/-! ### Tag codec / tokenizer model -/

/-- Modelled from the spec: boolean test that the first list is a prefix of the
second, used by the tokenizer model to match an atomic vocabulary entry
against the head of the remaining text. -/
def isPre : List Char → List Char → Bool
  | [], _ => true
  | _ :: _, [] => false
  | a :: as, b :: bs => a == b && isPre as bs

/-- Modelled from the spec (section 4.2, Tag Codec; the tokenizer itself is
external to the source tree): one backtracking pass over a candidate list of
vocabulary entries.  `next` tokenizes the remainder after a successful match;
on failure the next candidate entry is tried. -/
def tokTry (next : List Char → Option (List (List Char))) :
    List (List Char) → List Char → Option (List (List Char))
  | [], _ => none
  | v :: vs, s =>
    if !v.isEmpty && isPre v s then
      match next (s.drop v.length) with
      | some ts => some (v :: ts)
      | none => tokTry next vs s
    else tokTry next vs s

/-- Modelled from the spec: fuel-indexed tokenizer over an atomic vocabulary.
A string tokenizes to a list of vocabulary entries whose concatenation is the
string; the search backtracks over all segmentations. -/
def tokAll : Nat → List (List Char) → List Char → Option (List (List Char))
  | 0, _, _ => none
  | f + 1, vocab, s =>
    match s with
    | [] => some []
    | _ :: _ => tokTry (tokAll f vocab) vocab s

/-- Modelled from the spec: tokenize a string against an atomic vocabulary.
Fuel `s.length + 1` is enough because every emitted token is nonempty. -/
def tokenize (vocab : List (List Char)) (s : List Char) :
    Option (List (List Char)) :=
  tokAll (s.length + 1) vocab s

/-- Modelled from the spec: decoding a token sequence concatenates the textual
form of each token (`skip_special_tokens` skips nothing reserved here and no
extra spaces are inserted between delimiters). -/
def detok (ts : List (List Char)) : List Char := ts.flatten

/-- Modelled from the spec: a string is built only from reserved control
markers plus ordinary vocabulary when it is a concatenation of (nonempty)
vocabulary entries; registering each reserved delimiter as exactly one atomic
vocabulary entry makes the delimiters such entries. -/
def Segmentable (vocab : List (List Char)) (s : List Char) : Prop :=
  ∃ ps : List (List Char), (∀ p ∈ ps, p ∈ vocab ∧ p ≠ []) ∧ ps.flatten = s

/-- Modelled from the spec: a concrete vocabulary in which the reserved
delimiters `<gadget>` and `</gadget>` are atomic entries, alongside ordinary
vocabulary entries. -/
def gadgetVocab : List (List Char) :=
  ["<gadget>".toList, "</gadget>".toList, "<output>".toList,
   "</output>".toList, ['2'], ['+']]

/-- The literal text asserted to round-trip in the source script (line 58). -/
def demoText : List Char := "<gadget>2+2</gadget>".toList

/-! ### Calculator gadget model -/

/-- Modelled from the spec (section 4.1): the failure kinds of
`GadgetExecutionError` — malformed expression, division by zero, or an
unsupported operator. -/
inductive GadgetError
  | malformed
  | divisionByZero
  | unsupported
deriving DecidableEq

/-- Modelled from the spec: an exact numeric value carried by the Calculator,
a fraction `num / den` together with a flag recording whether any
decimal-point literal or division entered the computation (which controls
whether the rendered result carries a decimal point). -/
structure CalcVal where
  num : Int
  den : Nat
  isFloat : Bool
deriving DecidableEq

/-- Modelled from the spec: addition of calculator values. -/
def cvAdd (a b : CalcVal) : CalcVal :=
  ⟨a.num * (b.den : Int) + b.num * (a.den : Int), a.den * b.den, a.isFloat || b.isFloat⟩

/-- Modelled from the spec: subtraction of calculator values. -/
def cvSub (a b : CalcVal) : CalcVal :=
  ⟨a.num * (b.den : Int) - b.num * (a.den : Int), a.den * b.den, a.isFloat || b.isFloat⟩

/-- Modelled from the spec: multiplication of calculator values. -/
def cvMul (a b : CalcVal) : CalcVal :=
  ⟨a.num * b.num, a.den * b.den, a.isFloat || b.isFloat⟩

/-- Modelled from the spec: negation of a calculator value. -/
def cvNeg (a : CalcVal) : CalcVal :=
  ⟨-a.num, a.den, a.isFloat⟩

/-- Modelled from the spec: division of calculator values; the caller checks
the divisor against zero first.  Division always yields a decimal result. -/
def cvDiv (a b : CalcVal) : CalcVal :=
  ⟨a.num * (b.den : Int) * (if b.num < 0 then -1 else 1),
   a.den * b.num.natAbs, true⟩

/-- Modelled from the spec: smallest power of ten divisible by the
denominator (capped), used to render a fraction as a finite decimal. -/
def findScale (den : Nat) : Nat :=
  (((List.range 18).find? fun k => 10 ^ k % den == 0)).getD 17

/-- Pad a digit string with leading zeros to the given width. -/
def padZeros (k : Nat) (s : String) : String :=
  String.mk (List.replicate (k - s.length) '0') ++ s

/-- Drop trailing zeros of a fractional digit string, keeping one digit. -/
def stripTrailingZeros (s : String) : String :=
  let ds := (s.toList.reverse.dropWhile (· == '0')).reverse
  if ds.isEmpty then "0" else String.mk ds

/-- Modelled from the spec: render a calculator value that carries a decimal
point, e.g. `20.0`. -/
def renderFloat (v : CalcVal) : String :=
  let sign := if v.num < 0 then "-" else ""
  let n := v.num.natAbs
  let k := findScale v.den
  if k = 0 then sign ++ toString (n / v.den) ++ ".0"
  else
    let scaled := n * 10 ^ k / v.den
    sign ++ toString (scaled / 10 ^ k) ++ "." ++
      stripTrailingZeros (padZeros k (toString (scaled % 10 ^ k)))

/-- Modelled from the spec: render the Calculator result as its decimal text,
an integer rendering when no decimal literal or division occurred. -/
def cvRender (v : CalcVal) : String :=
  if v.isFloat then renderFloat v
  else if v.den = 1 then toString v.num
  else renderFloat v

/-- Modelled from the spec: calculator expression tokens. -/
inductive CTok
  | num (v : CalcVal)
  | plus
  | minus
  | times
  | divi
  | lpar
  | rpar
deriving DecidableEq

/-- Value of a digit string. -/
def digitsVal (ds : List Char) : Nat :=
  ds.foldl (fun n c => n * 10 + (c.toNat - 48)) 0

/-- Modelled from the spec: fuel-indexed lexer for arithmetic expressions.
Unknown characters are unsupported operators; a dangling decimal point is a
malformed expression. -/
def lexF : Nat → List Char → Except GadgetError (List CTok)
  | 0, _ => .error .malformed
  | _ + 1, [] => .ok []
  | f + 1, c :: cs =>
    if c = ' ' then lexF f cs
    else if c = '+' then (lexF f cs).map (CTok.plus :: ·)
    else if c = '-' then (lexF f cs).map (CTok.minus :: ·)
    else if c = '*' then (lexF f cs).map (CTok.times :: ·)
    else if c = '/' then (lexF f cs).map (CTok.divi :: ·)
    else if c = '(' then (lexF f cs).map (CTok.lpar :: ·)
    else if c = ')' then (lexF f cs).map (CTok.rpar :: ·)
    else if c.isDigit then
      let ds := (c :: cs).takeWhile (·.isDigit)
      let r1 := (c :: cs).dropWhile (·.isDigit)
      match r1 with
      | '.' :: r2 =>
        let fs := r2.takeWhile (·.isDigit)
        let r3 := r2.dropWhile (·.isDigit)
        if fs.isEmpty then .error .malformed
        else
          (lexF f r3).map
            (CTok.num ⟨(digitsVal ds * 10 ^ fs.length + digitsVal fs : Nat),
                       10 ^ fs.length, true⟩ :: ·)
      | _ => (lexF f r1).map (CTok.num ⟨(digitsVal ds : Nat), 1, false⟩ :: ·)
    else .error .unsupported

/-- Modelled from the spec: parser modes for a precedence-climbing evaluator
(`expr` is sums of `term`s, `term` is products/quotients of `factor`s). -/
inductive PMode
  | expr
  | exprLoop (acc : CalcVal)
  | term
  | termLoop (acc : CalcVal)
  | factor

/-- Modelled from the spec: fuel-indexed recursive-descent evaluation of a
lexed arithmetic expression.  Division by zero fails with the dedicated
error; any shape violation is a malformed expression. -/
def parseF : Nat → PMode → List CTok → Except GadgetError (CalcVal × List CTok)
  | 0, _, _ => .error .malformed
  | f + 1, .expr, ts =>
    match parseF f .term ts with
    | .ok (v, r) => parseF f (.exprLoop v) r
    | .error e => .error e
  | f + 1, .exprLoop a, ts =>
    match ts with
    | .plus :: r =>
      (match parseF f .term r with
       | .ok (v, r2) => parseF f (.exprLoop (cvAdd a v)) r2
       | .error e => .error e)
    | .minus :: r =>
      (match parseF f .term r with
       | .ok (v, r2) => parseF f (.exprLoop (cvSub a v)) r2
       | .error e => .error e)
    | _ => .ok (a, ts)
  | f + 1, .term, ts =>
    match parseF f .factor ts with
    | .ok (v, r) => parseF f (.termLoop v) r
    | .error e => .error e
  | f + 1, .termLoop a, ts =>
    match ts with
    | .times :: r =>
      (match parseF f .factor r with
       | .ok (v, r2) => parseF f (.termLoop (cvMul a v)) r2
       | .error e => .error e)
    | .divi :: r =>
      (match parseF f .factor r with
       | .ok (v, r2) =>
         if v.num = 0 then .error .divisionByZero
         else parseF f (.termLoop (cvDiv a v)) r2
       | .error e => .error e)
    | _ => .ok (a, ts)
  | f + 1, .factor, ts =>
    match ts with
    | .num v :: r => .ok (v, r)
    | .minus :: r => (parseF f .factor r).map (fun p => (cvNeg p.1, p.2))
    | .lpar :: r =>
      (match parseF f .expr r with
       | .ok (v, .rpar :: r2) => .ok (v, r2)
       | .ok _ => .error .malformed
       | .error e => .error e)
    | _ => .error .malformed

/-- Modelled from the spec (section 4.1): the Calculator gadget — evaluate an
arithmetic expression string and return its decimal result, failing with a
`GadgetError` on malformed expressions, division by zero, or unsupported
operators.  It is a total function: no fault escapes it. -/
def calcGadget (s : String) : Except GadgetError String :=
  match lexF (s.toList.length + 1) s.toList with
  | .error e => .error e
  | .ok ts =>
    match parseF (4 * ts.length + 8) .expr ts with
    | .ok (v, []) => .ok (cvRender v)
    | .ok _ => .error .malformed
    | .error e => .error e

/-! ### Gadget registry and gadget-aware decoder model -/

/-- Modelled from the spec (section 4.1): failures of a dispatch — the tag
names a gadget missing from the registry, or the gadget ran and failed. -/
inductive DispatchError
  | unknownGadget
  | executionError (e : GadgetError)
deriving DecidableEq

/-- Modelled from the spec: the fixed capability table mapping gadget names
to pure text-to-text functions; the script registers only the Calculator. -/
def gadgetRegistry : List (String × (String → Except GadgetError String)) :=
  [("Calculator", calcGadget)]

/-- Modelled from the spec: resolve the gadget name in the registry and
invoke it; every failure is converted to a `DispatchError`, never an
unhandled fault. -/
def dispatchGadget (reg : List (String × (String → Except GadgetError String)))
    (name input : String) : Except DispatchError String :=
  match reg.lookup name with
  | none => .error .unknownGadget
  | some g =>
    match g input with
    | .ok out => .ok out
    | .error e => .error (.executionError e)

/-- Modelled from the spec (section 4.3): the decoder error policy —
fail-soft inserts an error marker and continues, fail-fast aborts. -/
inductive ErrorPolicy
  | failSoft
  | failFast
deriving DecidableEq

/-- Modelled from the spec: tokens of the decoded stream — ordinary text
tokens, the four reserved control tokens, the synthesized error marker, and
end-of-sequence. -/
inductive GTok
  | ord (s : String)
  | gadgetOpen
  | gadgetClose
  | outOpen
  | outClose
  | errorMarker
  | eos
deriving DecidableEq

/-- Modelled from the spec: the decoded text of a token, used when
accumulating the gadget input buffer. -/
def tokText : GTok → String
  | .ord s => s
  | .gadgetOpen => "<gadget>"
  | .gadgetClose => "</gadget>"
  | .outOpen => "<output>"
  | .outClose => "</output>"
  | .errorMarker => "ERROR"
  | .eos => ""

/-- Modelled from the spec (section 4.3): decoder phases.  `DISPATCHING` and
`INSERTING_OUTPUT` are transient within the processing of a gadget-close
token; `DONE` and `ABORTED` are absorbing. -/
inductive Phase
  | GENERATING
  | IN_GADGET_INPUT
  | DONE
  | ABORTED
deriving DecidableEq

/-- Modelled from the spec (section 3): per-sequence generation state. -/
structure GenerationState where
  emitted : List GTok
  authored_tokens : Nat
  inserted_tokens : Nat
  gadget_call_count : Nat
  phase : Phase
  input_buffer : String
  truncated : Bool
deriving DecidableEq

/-- Modelled from the spec: decoder configuration — the authored-token
budget (`default_max_tokens=512` in the script), the gadget-call ceiling,
the registry, the gadget the open tag names, and the error policy. -/
structure DecoderCfg where
  maxTokens : Nat
  maxGadgetCalls : Nat
  registry : List (String × (String → Except GadgetError String))
  gadgetName : String
  policy : ErrorPolicy

/-- The decoder configuration used by the script: Calculator only. -/
def mkCfg (n k : Nat) (pol : ErrorPolicy) : DecoderCfg :=
  ⟨n, k, gadgetRegistry, "Calculator", pol⟩

/-- Modelled from the spec (section 4.3, `INSERTING_OUTPUT`): append the
output-open token, the gadget output (or error marker), and the output-close
token as context, count them as inserted — not authored — tokens, count the
completed gadget call, and return to `GENERATING`. -/
def insertOutput (st : GenerationState) (outTok : GTok) : GenerationState :=
  { st with
    emitted := st.emitted ++ [.outOpen, outTok, .outClose],
    inserted_tokens := st.inserted_tokens + 3,
    gadget_call_count := st.gadget_call_count + 1,
    phase := .GENERATING }

/-- Modelled from the spec (section 4.3): one decode step consuming one
sampled token.  Terminal states absorb; a sequence whose authored-token
count has reached the budget, or whose gadget-call count has reached the
ceiling at a dispatch, is aborted with `truncated = true`. -/
def decodeStep (cfg : DecoderCfg) (st : GenerationState) (t : GTok) :
    GenerationState :=
  if st.phase = .DONE ∨ st.phase = .ABORTED then st
  else if cfg.maxTokens ≤ st.authored_tokens then
    { st with phase := .ABORTED, truncated := true }
  else
    let stc := { st with
      authored_tokens := st.authored_tokens + 1,
      emitted := st.emitted ++ [t] }
    match st.phase, t with
    | .GENERATING, .eos => { stc with phase := .DONE }
    | .GENERATING, .gadgetOpen =>
      { stc with phase := .IN_GADGET_INPUT, input_buffer := "" }
    | .GENERATING, _ => stc
    | .IN_GADGET_INPUT, .gadgetClose =>
      if cfg.maxGadgetCalls ≤ st.gadget_call_count then
        { stc with phase := .ABORTED, truncated := true }
      else
        match dispatchGadget cfg.registry cfg.gadgetName st.input_buffer with
        | .ok out => insertOutput stc (.ord out)
        | .error _ =>
          match cfg.policy with
          | .failSoft => insertOutput stc .errorMarker
          | .failFast => { stc with phase := .ABORTED, truncated := true }
    | .IN_GADGET_INPUT, tk =>
      { stc with input_buffer := st.input_buffer ++ tokText tk }
    | _, _ => stc

/-- Modelled from the spec: run the decoder over a stream of sampled
tokens. -/
def decodeRun (cfg : DecoderCfg) (st : GenerationState) (ts : List GTok) :
    GenerationState :=
  ts.foldl (decodeStep cfg) st

/-- Modelled from the spec: the fresh state a sequence starts decoding
from. -/
def initState : GenerationState :=
  ⟨[], 0, 0, 0, .GENERATING, "", false⟩

/-- The token stream of a model that keeps invoking the gadget: `m` repeats
of open tag, the expression `2`, close tag. -/
def gadgetTriple : List GTok := [.gadgetOpen, .ord "2", .gadgetClose]

/-- `m` back-to-back gadget invocations. -/
def tripleStream : Nat → List GTok
  | 0 => []
  | m + 1 => gadgetTriple ++ tripleStream m

/-! ### Canonical data model and preprocessing parsers -/

/-- Modelled from the spec (section 3): one resolved tool invocation;
`output_text` is absent when the call failed. -/
structure GadgetCall where
  gadget_name : String
  input_text : String
  output_text : Option String
  ok : Bool
deriving DecidableEq

/-- Modelled from the spec: a rationale is a flat ordered interleaving of
plain text segments and gadget calls. -/
inductive RatSeg
  | text (s : String)
  | call (c : GadgetCall)
deriving DecidableEq

/-- Modelled from the spec: which dataset an example came from. -/
inductive DatasetId
  | GSM
  | AQUA
deriving DecidableEq

/-- Modelled from the spec (section 3): the canonical `Example` produced by
the preprocessing pipeline. -/
structure Example where
  question : String
  rationale : List RatSeg
  final_answer : String
  dataset_id : DatasetId
deriving DecidableEq

/-- Modelled from the spec: a raw AQuA-RAT record — question, free-form
rationale, answer options, and the chosen multiple-choice letter. -/
structure AquaRaw where
  question : String
  rationale : String
  options : List String
  correct : String
deriving DecidableEq

/-- Split a character list at the first occurrence of `pat`, returning the
part before it and the part after it; `none` when `pat` does not occur. -/
def breakOnTag (pat : List Char) : List Char → Option (List Char × List Char)
  | [] => if pat.isEmpty then some ([], []) else none
  | c :: cs =>
    if isPre pat (c :: cs) then some ([], (c :: cs).drop pat.length)
    else
      match breakOnTag pat cs with
      | some (pre, post) => some (c :: pre, post)
      | none => none

/-- Modelled from the spec: build the `GadgetCall` for one located arithmetic
sub-expression — the literal expression is the input text and the
Calculator supplies the output text. -/
def mkGadgetCall (expr : String) : GadgetCall :=
  match calcGadget expr with
  | .ok out => ⟨"Calculator", expr, some out, true⟩
  | .error _ => ⟨"Calculator", expr, none, false⟩

/-- Modelled from the spec (section 4.4, AquaParser): split the rationale at
each canonical gadget-open/close tagged sub-expression, turning each tagged
expression into a `GadgetCall` and the surrounding text into text
segments. -/
def parseRationaleF : Nat → List Char → List RatSeg
  | 0, cs => [RatSeg.text (String.mk cs)]
  | f + 1, cs =>
    match breakOnTag "<gadget>".toList cs with
    | none => [RatSeg.text (String.mk cs)]
    | some (pre, rest) =>
      match breakOnTag "</gadget>".toList rest with
      | none => [RatSeg.text (String.mk cs)]
      | some (expr, rest2) =>
        RatSeg.text (String.mk pre) ::
          RatSeg.call (mkGadgetCall (String.mk expr)) ::
            parseRationaleF f rest2

/-- Modelled from the spec (section 4.4): `AquaParser.parse` — the rationale
becomes the canonical interleaving and the chosen multiple-choice letter is
left as `final_answer`. -/
def aquaParse (raw : AquaRaw) : Example :=
  ⟨raw.question,
   parseRationaleF (raw.rationale.toList.length + 1) raw.rationale.toList,
   raw.correct, .AQUA⟩

/-- The gadget calls of an example rationale, in order. -/
def rationaleCalls (ex : Example) : List GadgetCall :=
  ex.rationale.filterMap fun seg =>
    match seg with
    | .call c => some c
    | _ => none

/-- The concrete raw record of testable property 8. -/
def aquaDemoRaw : AquaRaw :=
  ⟨"q", "Profit = 20 <gadget>100*0.2</gadget> ... answer: B",
   ["A) 10", "B) 20"], "B"⟩

/-! ### Per-record parsing pipeline -/

/-- Modelled from the spec (section 4.4 / 7): run a per-record parser over the
raw records; a record whose parse fails is dropped and counted, every other
record is kept, and the run itself always completes. -/
def parsePipeline {α β : Type} (p : α → Option β) : List α → List β × Nat
  | [] => ([], 0)
  | r :: rs =>
    let rest := parsePipeline p rs
    match p r with
    | some e => (e :: rest.1, rest.2)
    | none => (rest.1, rest.2 + 1)

/-! ### Metrics aggregator -/

/-- Modelled from the spec (section 7): the fatal configuration error raised
when the declared group lengths do not sum to the evaluated batch size. -/
inductive MetricsError
  | GroupLengthMismatchError
deriving DecidableEq

/-- Modelled from the spec (section 3): a named contiguous segment of the
concatenated evaluation set. -/
structure DatasetGroup where
  name : String
  length : Nat
deriving DecidableEq

/-- Modelled from the spec (section 4.5): score each declared group on its
contiguous slice of the batch, returning per-group correct counts. -/
def scoreGroups {α : Type} (score : α → Bool) :
    List DatasetGroup → List α → List (String × Nat)
  | [], _ => []
  | g :: gs, batch =>
    (g.name, ((batch.take g.length).filter score).length) ::
      scoreGroups score gs (batch.drop g.length)

/-- Modelled from the spec (section 4.5): `MetricsAggregator.evaluate` —
the declared group lengths must sum to the batch size; a mismatch is detected
up front and no example is scored. -/
def metricsEvaluate {α : Type} (score : α → Bool)
    (groups : List DatasetGroup) (batch : List α) :
    Except MetricsError (List (String × Nat)) :=
  if (groups.map DatasetGroup.length).sum = batch.length then
    .ok (scoreGroups score groups batch)
  else .error .GroupLengthMismatchError

/-! ### The orchestration script (embedded from the source) -/

/-- A named model parameter with its grad flag, as iterated by
`model.named_parameters()` in the script. -/
structure ModelParam where
  name : String
  requires_grad : Bool
deriving DecidableEq

/-- The substrings of the 10 percent finetuning scheme (script lines
123-124). -/
def scheme10 : List String :=
  ["lm_head.weight", "SelfAttention.v.weight"]

/-- The substrings of the 20 percent finetuning scheme (script lines
125-128). -/
def scheme20 : List String :=
  ["lm_head.weight", "SelfAttention.v.weight", "SelfAttention.k.weight",
   "EncDecAttention.v.weight"]

/-- The substrings of the 30 percent finetuning scheme (script lines
129-134). -/
def scheme30 : List String :=
  ["lm_head.weight", "SelfAttention.v.weight", "SelfAttention.k.weight",
   "SelfAttention.q.weight", "EncDecAttention.v.weight",
   "EncDecAttention.k.weight"]

/-- The substrings of the 40 percent finetuning scheme (script lines
135-142). -/
def scheme40 : List String :=
  ["lm_head.weight", "SelfAttention.v.weight", "SelfAttention.k.weight",
   "SelfAttention.q.weight", "SelfAttention.o.weight",
   "EncDecAttention.v.weight", "EncDecAttention.k.weight",
   "EncDecAttention.q.weight"]

/-- The `finetuning_schemes` table of the script (lines 122-143); keys other
than the declared argparse choices raise a `KeyError`, modelled as `none`. -/
def finetuning_schemes : Nat → Option (List String)
  | 10 => some scheme10
  | 20 => some scheme20
  | 30 => some scheme30
  | 40 => some scheme40
  | _ => none

/-- Boolean occurrence test of `pat` inside `hay` (Python's `in` on
strings), on character lists. -/
def containsSub : List Char → List Char → Bool
  | pat, [] => isPre pat []
  | pat, c :: cs => isPre pat (c :: cs) || containsSub pat cs

/-- The loop at script lines 145-146: freeze every parameter. -/
def freezeAll (ps : List ModelParam) : List ModelParam :=
  ps.map fun p => { p with requires_grad := false }

/-- The test of script line 149: some scheme substring occurs in the
parameter name. -/
def nameMatches (scheme : List String) (n : String) : Bool :=
  scheme.any fun t => containsSub t.toList n.toList

/-- The loop at script lines 148-150: re-enable gradients for every
parameter whose name contains a scheme substring. -/
def enableScheme (scheme : List String) (ps : List ModelParam) :
    List ModelParam :=
  ps.map fun p =>
    if nameMatches scheme p.name then { p with requires_grad := true } else p

/-- The whole partial-finetuning setup of script lines 145-150 (executed when
`--finetune_whole_model` is false): freeze everything, then re-enable the
matching names. -/
def partialFinetune (scheme : List String) (ps : List ModelParam) :
    List ModelParam :=
  enableScheme scheme (freezeAll ps)

/-- A Python `AttributeError`, carrying the missing attribute name. -/
inductive PyError
  | attributeError (attr : String)
deriving DecidableEq

/-- How far the straight-line script gets (externals assumed to succeed). -/
inductive ScriptOutcome
  | raised (e : PyError)
  | reachedTraining
deriving DecidableEq

/-- The argument names registered on the parser at script lines 19-34. -/
def registeredArgs : List String :=
  ["model_name", "finetune_whole_model", "finetune_percent", "epochs",
   "per_device_train_batch_size", "per_device_eval_batch_size",
   "generation_max_length", "lr", "seed", "deepspeed_config_json",
   "gradient_checkpointing", "bf16"]

/-- Attribute access on the parsed-arguments namespace: a name that was
never registered raises `AttributeError` (Python `Namespace` semantics). -/
def getattrNS {V : Type} (ns : List (String × V)) (a : String) :
    Except PyError V :=
  match ns.lookup a with
  | some v => .ok v
  | none => .error (.attributeError a)

/-- The attribute reads the script performs on `args`, in source order, up to
and including the `wandb.init` call at lines 159-164 (model and dataset
loading are external calls assumed to succeed; `truthy` interprets the
Python truthiness of `args.finetune_whole_model` at line 121). -/
def scriptReads {V : Type} (truthy : V → Bool) (ns : List (String × V)) :
    Except PyError Unit := do
  let _ ← getattrNS ns "model_name"
  let _ ← getattrNS ns "gradient_checkpointing"
  let fwm ← getattrNS ns "finetune_whole_model"
  if truthy fwm then
    pure ()
  else
    let _ ← getattrNS ns "finetune_percent"
    pure ()
  let _ ← getattrNS ns "model_name"
  let _ ← getattrNS ns "wandb_tags"
  let _ ← getattrNS ns "wandb_tags"
  let _ ← getattrNS ns "output_dir"
  pure ()

/-- Run the script front half: it reaches training only if every attribute
read succeeds. -/
def scriptRun {V : Type} (truthy : V → Bool) (ns : List (String × V)) :
    ScriptOutcome :=
  match scriptReads truthy ns with
  | .ok _ => .reachedTraining
  | .error e => .raised e

/-- The parsed command-line arguments of the script (lines 19-34), with
their Python types shallowly embedded. -/
structure Args where
  model_name : String
  finetune_whole_model : Bool
  finetune_percent : Nat
  epochs : Nat
  per_device_train_batch_size : Nat
  per_device_eval_batch_size : Nat
  generation_max_length : Nat
  lr : Int
  seed : Int
  deepspeed_config_json : Option String
  gradient_checkpointing : Bool
  bf16 : Bool
deriving DecidableEq

/-- Every externally visible value the script derives from its arguments,
together with the three places a random seed is fixed: `set_seed(42)` at
line 39, `train_test_split(..., seed=42)` at line 92, and
`np.random.default_rng(42)` at line 105. -/
structure ScriptEffects where
  set_seed_arg : Nat
  split_seed : Nat
  rng_seed : Nat
  loaded_model : String
  use_cache : Bool
  scheme : Option (Option (List String))
  train_bs : Nat
  eval_bs : Nat
  gen_max_len : Nat
  lr_used : Int
  epochs_used : Nat
  deepspeed_cfg : Option String
  grad_ckpt : Bool
  bf16_used : Bool
deriving DecidableEq

/-- How the script consumes its parsed arguments (lines 39-194): every field
below reads the argument named in its definition; no field reads
`args.seed`. -/
def scriptEffects (a : Args) : ScriptEffects :=
  { set_seed_arg := 42
    split_seed := 42
    rng_seed := 42
    loaded_model := a.model_name
    use_cache := !a.gradient_checkpointing
    scheme :=
      if a.finetune_whole_model then none
      else some (finetuning_schemes a.finetune_percent)
    train_bs := a.per_device_train_batch_size
    eval_bs := a.per_device_eval_batch_size
    gen_max_len := a.generation_max_length
    lr_used := a.lr
    epochs_used := a.epochs
    deepspeed_cfg := a.deepspeed_config_json
    grad_ckpt := a.gradient_checkpointing
    bf16_used := a.bf16 }

/-! ### Tokenizer round-trip lemmas -/

theorem isPre_append (v r : List Char) : isPre v (v ++ r) = true := by
  induction v with
  | nil => rfl
  | cons a as ih => simp [isPre, ih]

theorem isPre_decomp :
    ∀ (v s : List Char), isPre v s = true → s = v ++ s.drop v.length := by
  intro v
  induction v with
  | nil => intro s _; simp
  | cons a as ih =>
    intro s h
    cases s with
    | nil => simp [isPre] at h
    | cons b bs =>
      simp only [isPre, Bool.and_eq_true, beq_iff_eq] at h
      obtain ⟨h1, h2⟩ := h
      subst h1
      simp only [List.length_cons, List.drop_succ_cons, List.cons_append,
        List.cons.injEq, true_and]
      exact ih bs h2

theorem tokTry_sound (next : List Char → Option (List (List Char)))
    (hnext : ∀ r ts, next r = some ts → ts.flatten = r) :
    ∀ tl s ts, tokTry next tl s = some ts → ts.flatten = s := by
  intro tl
  induction tl with
  | nil => intro s ts h; simp [tokTry] at h
  | cons v vs ih =>
    intro s ts h
    rw [tokTry] at h
    by_cases hg : (!v.isEmpty && isPre v s) = true
    · rw [if_pos hg] at h
      simp only [Bool.and_eq_true] at hg
      cases heq : next (s.drop v.length) with
      | some ts2 =>
        rw [heq] at h
        cases h
        have h2 := hnext _ _ heq
        simp only [List.flatten_cons, h2]
        exact (isPre_decomp v s hg.2).symm
      | none =>
        rw [heq] at h
        exact ih s ts h
    · rw [if_neg hg] at h
      exact ih s ts h

theorem tokAll_sound :
    ∀ f vocab s ts, tokAll f vocab s = some ts → ts.flatten = s := by
  intro f
  induction f with
  | zero => intro vocab s ts h; simp [tokAll] at h
  | succ f ih =>
    intro vocab s ts h
    cases s with
    | nil =>
      simp only [tokAll, Option.some.injEq] at h
      subst h
      rfl
    | cons c cs =>
      simp only [tokAll] at h
      exact tokTry_sound _ (fun r ts2 h2 => ih vocab r ts2 h2) vocab (c :: cs) ts h

theorem tokTry_complete (next : List Char → Option (List (List Char)))
    (p rest : List Char) (hp : p ≠ [])
    (hnext : ∃ ts2, next rest = some ts2) :
    ∀ tl, p ∈ tl → ∃ ts, tokTry next tl (p ++ rest) = some ts := by
  intro tl
  induction tl with
  | nil => intro h; simp at h
  | cons v vs ih =>
    intro hmem
    by_cases hg : (!v.isEmpty && isPre v (p ++ rest)) = true
    · cases heq : next ((p ++ rest).drop v.length) with
      | some ts2 => exact ⟨v :: ts2, by rw [tokTry, if_pos hg, heq]⟩
      | none =>
        have hvp : v ≠ p := by
          intro hvp
          subst hvp
          rw [List.drop_left] at heq
          obtain ⟨ts2, h2⟩ := hnext
          rw [heq] at h2
          cases h2
        have hpvs : p ∈ vs := by
          rcases List.mem_cons.mp hmem with h | h
          · exact absurd h.symm hvp
          · exact h
        obtain ⟨ts, hts⟩ := ih hpvs
        exact ⟨ts, by rw [tokTry, if_pos hg, heq]; exact hts⟩
    · have hvp : v ≠ p := by
        intro hvp
        subst hvp
        apply hg
        simp [hp, isPre_append]
      have hpvs : p ∈ vs := by
        rcases List.mem_cons.mp hmem with h | h
        · exact absurd h.symm hvp
        · exact h
      obtain ⟨ts, hts⟩ := ih hpvs
      exact ⟨ts, by rw [tokTry, if_neg hg]; exact hts⟩

theorem tokAll_complete (vocab : List (List Char)) :
    ∀ n s, s.length ≤ n → ∀ f, s.length < f → Segmentable vocab s →
    ∃ ts, tokAll f vocab s = some ts := by
  intro n
  induction n using Nat.strong_induction_on with
  | _ n ih =>
    intro s hlen f hf hseg
    obtain ⟨ps, hps, hflat⟩ := hseg
    cases f with
    | zero => omega
    | succ f1 =>
      cases s with
      | nil => exact ⟨[], by simp only [tokAll]⟩
      | cons c cs =>
        cases ps with
        | nil => simp at hflat
        | cons p ps2 =>
          have hp := hps p (List.mem_cons_self p ps2)
          rw [List.flatten_cons] at hflat
          have hsplit : c :: cs = p ++ ps2.flatten := hflat.symm
          have hplen : 0 < p.length := List.length_pos.mpr hp.2
          have hlens : (c :: cs).length = p.length + ps2.flatten.length := by
            rw [hsplit, List.length_append]
          have hrestlen : ps2.flatten.length < n := by
            have hcc : 0 < (c :: cs).length := by simp
            omega
          have hrestf : ps2.flatten.length < f1 := by omega
          have hsegrest : Segmentable vocab ps2.flatten :=
            ⟨ps2, fun q hq => hps q (List.mem_cons_of_mem p hq), rfl⟩
          have hnext :=
            ih ps2.flatten.length hrestlen ps2.flatten le_rfl f1 hrestf hsegrest
          obtain ⟨ts, hts⟩ :=
            tokTry_complete (tokAll f1 vocab) p ps2.flatten hp.2 hnext vocab hp.1
          refine ⟨ts, ?_⟩
          simp only [tokAll]
          rw [hsplit]
          exact hts

/-! ### Claim theorems -/

/-- C1: tokenizing the literal string `<gadget>2+2</gadget>` and decoding
the token sequence back (skipping no special tokens, preserving delimiter
spacing) reproduces the exact original string, and the round-trip holds for
every string built only from the reserved control markers plus ordinary
vocabulary, given that each reserved delimiter is one atomic vocabulary
entry. -/
theorem tok_round_trip :
    (∀ vocab s, Segmentable vocab s →
      ∃ ts, tokenize vocab s = some ts ∧ detok ts = s) ∧
    ∃ ts, tokenize gadgetVocab demoText = some ts ∧ detok ts = demoText := by
  have main : ∀ vocab s, Segmentable vocab s →
      ∃ ts, tokenize vocab s = some ts ∧ detok ts = s := by
    intro vocab s hseg
    obtain ⟨ts, hts⟩ :=
      tokAll_complete vocab s.length s le_rfl (s.length + 1) (by omega) hseg
    exact ⟨ts, hts, tokAll_sound _ _ _ _ hts⟩
  refine ⟨main, main gadgetVocab demoText ?_⟩
  exact ⟨["<gadget>".toList, ['2'], ['+'], ['2'], "</gadget>".toList],
    by decide, by decide⟩

/-- Witness for C1 at the concrete delimiter vocabulary and the literal
string of the source assert. -/
theorem tok_round_trip_witness :
    ∃ ts, tokenize gadgetVocab demoText = some ts ∧ detok ts = demoText :=
  tok_round_trip.1 gadgetVocab demoText
    ⟨["<gadget>".toList, ['2'], ['+'], ['2'], "</gadget>".toList],
      by decide, by decide⟩

/-! ### Decoder invariant lemmas -/

theorem dispatch_two : dispatchGadget gadgetRegistry "Calculator" "2" = .ok "2" := rfl

theorem genTriple_run (N K : Nat) (pol : ErrorPolicy) (st : GenerationState)
    (hph : st.phase = .GENERATING) (hc : st.gadget_call_count < K)
    (ha : st.authored_tokens + 3 ≤ N) :
    decodeRun (mkCfg N K pol) st gadgetTriple =
      { st with
        emitted := st.emitted ++
          [.gadgetOpen, .ord "2", .gadgetClose, .outOpen, .ord "2", .outClose],
        authored_tokens := st.authored_tokens + 3,
        inserted_tokens := st.inserted_tokens + 3,
        gadget_call_count := st.gadget_call_count + 1,
        input_buffer := "2" } := by
  rcases st with ⟨em, a, i, c, ph, buf, tr⟩
  simp only at hph hc ha
  subst hph
  have h1 : ¬ (N ≤ a) := by omega
  have h2 : ¬ (N ≤ a + 1) := by omega
  have h3 : ¬ (N ≤ a + 2) := by omega
  have h4 : ¬ (K ≤ c) := by omega
  simp [decodeRun, gadgetTriple, decodeStep, mkCfg, insertOutput, dispatch_two,
    h1, h2, h3, h4, tokText]

theorem triple_abort (N K : Nat) (pol : ErrorPolicy) (st : GenerationState)
    (hph : st.phase = .GENERATING) (hc : K ≤ st.gadget_call_count)
    (ha : st.authored_tokens + 3 ≤ N) :
    decodeRun (mkCfg N K pol) st gadgetTriple =
      { st with
        emitted := st.emitted ++ [.gadgetOpen, .ord "2", .gadgetClose],
        authored_tokens := st.authored_tokens + 3,
        phase := .ABORTED,
        input_buffer := "2",
        truncated := true } := by
  rcases st with ⟨em, a, i, c, ph, buf, tr⟩
  simp only at hph hc ha
  subst hph
  have h1 : ¬ (N ≤ a) := by omega
  have h2 : ¬ (N ≤ a + 1) := by omega
  have h3 : ¬ (N ≤ a + 2) := by omega
  simp [decodeRun, gadgetTriple, decodeStep, mkCfg, insertOutput,
    h1, h2, h3, hc, tokText]

theorem run_terminal (cfg : DecoderCfg) (st : GenerationState)
    (h : st.phase = .DONE ∨ st.phase = .ABORTED) :
    ∀ ts, decodeRun cfg st ts = st := by
  intro ts
  induction ts with
  | nil => rfl
  | cons t ts ih =>
    have hstep : decodeStep cfg st t = st := by
      unfold decodeStep
      rw [if_pos h]
    calc decodeRun cfg st (t :: ts)
        = decodeRun cfg (decodeStep cfg st t) ts := rfl
      _ = decodeRun cfg st ts := by rw [hstep]
      _ = st := ih

theorem decodeRun_append (cfg : DecoderCfg) (st : GenerationState)
    (xs ys : List GTok) :
    decodeRun cfg st (xs ++ ys) = decodeRun cfg (decodeRun cfg st xs) ys :=
  List.foldl_append _ _ _ _

theorem triples_reach (N K : Nat) (pol : ErrorPolicy) :
    ∀ m (st : GenerationState), st.phase = .GENERATING →
      st.gadget_call_count + m ≤ K → st.authored_tokens + 3 * m ≤ N →
      (decodeRun (mkCfg N K pol) st (tripleStream m)).phase = .GENERATING ∧
      (decodeRun (mkCfg N K pol) st (tripleStream m)).gadget_call_count =
        st.gadget_call_count + m ∧
      (decodeRun (mkCfg N K pol) st (tripleStream m)).authored_tokens =
        st.authored_tokens + 3 * m ∧
      (decodeRun (mkCfg N K pol) st (tripleStream m)).truncated = st.truncated ∧
      ∃ suf, (decodeRun (mkCfg N K pol) st (tripleStream m)).emitted =
        st.emitted ++ suf := by
  intro m
  induction m with
  | zero =>
    intro st hph _ _
    exact ⟨hph, rfl, rfl, rfl, [], by show st.emitted = st.emitted ++ []; simp⟩
  | succ m ih =>
    intro st hph hc ha
    have hstep := genTriple_run N K pol st hph (by omega) (by omega)
    rw [show tripleStream (m + 1) = gadgetTriple ++ tripleStream m from rfl,
      decodeRun_append, hstep]
    obtain ⟨hph2, hc2, ha2, htr2, suf, hem2⟩ :=
      ih { st with
            emitted := st.emitted ++
              [.gadgetOpen, .ord "2", .gadgetClose, .outOpen, .ord "2", .outClose],
            authored_tokens := st.authored_tokens + 3,
            inserted_tokens := st.inserted_tokens + 3,
            gadget_call_count := st.gadget_call_count + 1,
            input_buffer := "2" }
        hph (show st.gadget_call_count + 1 + m ≤ K by omega)
        (show st.authored_tokens + 3 + 3 * m ≤ N by omega)
    refine ⟨hph2, ?_, ?_, htr2, ?_⟩
    · rw [hc2]
      show st.gadget_call_count + 1 + m = st.gadget_call_count + (m + 1)
      omega
    · rw [ha2]
      show st.authored_tokens + 3 + 3 * m = st.authored_tokens + 3 * (m + 1)
      omega
    · refine ⟨[.gadgetOpen, .ord "2", .gadgetClose, .outOpen, .ord "2", .outClose] ++ suf, ?_⟩
      rw [hem2]
      show st.emitted ++ [GTok.gadgetOpen, GTok.ord "2", GTok.gadgetClose,
        GTok.outOpen, GTok.ord "2", GTok.outClose] ++ suf = _
      simp

theorem step_authored_le (cfg : DecoderCfg) (st : GenerationState) (t : GTok)
    (h : st.authored_tokens ≤ cfg.maxTokens) :
    (decodeStep cfg st t).authored_tokens ≤ cfg.maxTokens := by
  unfold decodeStep
  split
  · exact h
  · split
    · exact h
    · rename_i hterm hbud
      have hlt : st.authored_tokens < cfg.maxTokens := Nat.not_le.mp hbud
      rcases st with ⟨em, a, i, c, ph, buf, tr⟩
      simp only at hlt
      cases ph <;> cases t <;>
        simp only [insertOutput] <;>
        first
          | (simp; omega)
          | (split <;>
              first
                | (simp; omega)
                | (cases hdis2 : dispatchGadget cfg.registry cfg.gadgetName buf <;>
                    (try cases cfg.policy) <;> simp [insertOutput] <;> omega))

theorem step_count_le (cfg : DecoderCfg) (st : GenerationState) (t : GTok)
    (h : st.gadget_call_count ≤ cfg.maxGadgetCalls) :
    (decodeStep cfg st t).gadget_call_count ≤ cfg.maxGadgetCalls := by
  unfold decodeStep
  split
  · exact h
  · split
    · exact h
    · rcases st with ⟨em, a, i, c, ph, buf, tr⟩
      simp only at h
      cases ph <;> cases t <;>
        simp only [insertOutput] <;>
        first
          | exact h
          | (simp; omega)
          | (split <;>
              first
                | exact h
                | (simp; omega)
                | (cases hdis2 : dispatchGadget cfg.registry cfg.gadgetName buf <;>
                    (try cases cfg.policy) <;> simp_all [insertOutput] <;> omega))

theorem run_authored_le (cfg : DecoderCfg) (st : GenerationState)
    (ts : List GTok) (h : st.authored_tokens ≤ cfg.maxTokens) :
    (decodeRun cfg st ts).authored_tokens ≤ cfg.maxTokens := by
  induction ts generalizing st with
  | nil => exact h
  | cons t ts ih => exact ih _ (step_authored_le cfg st t h)

theorem run_count_le (cfg : DecoderCfg) (st : GenerationState)
    (ts : List GTok) (h : st.gadget_call_count ≤ cfg.maxGadgetCalls) :
    (decodeRun cfg st ts).gadget_call_count ≤ cfg.maxGadgetCalls := by
  induction ts generalizing st with
  | nil => exact h
  | cons t ts ih => exact ih _ (step_count_le cfg st t h)

/-- C2: the Calculator gadget applied to `2+2` returns `4`; applied to `1/0`
it fails with a `GadgetExecutionError` (division by zero), and under either
decoder error policy — fail-soft inserting an error marker and continuing,
fail-fast aborting the sequence — the decode step transitions to a defined
state, so no unhandled fault propagates out of the decode loop. -/
theorem calculator_error_policy :
    calcGadget "2+2" = .ok "4" ∧
    calcGadget "1/0" = .error .divisionByZero ∧
    dispatchGadget gadgetRegistry "Calculator" "1/0" =
      .error (.executionError .divisionByZero) ∧
    (∀ n k em a i c tr, a < n → c < k →
      decodeStep (mkCfg n k .failSoft)
          ⟨em, a, i, c, .IN_GADGET_INPUT, "1/0", tr⟩ .gadgetClose =
        ⟨em ++ [.gadgetClose, .outOpen, .errorMarker, .outClose], a + 1, i + 3,
         c + 1, .GENERATING, "1/0", tr⟩) ∧
    (∀ n k em a i c tr, a < n → c < k →
      decodeStep (mkCfg n k .failFast)
          ⟨em, a, i, c, .IN_GADGET_INPUT, "1/0", tr⟩ .gadgetClose =
        ⟨em ++ [.gadgetClose], a + 1, i, c, .ABORTED, "1/0", true⟩) := by
  have hd : dispatchGadget gadgetRegistry "Calculator" "1/0" =
      .error (.executionError .divisionByZero) := rfl
  refine ⟨rfl, rfl, hd, ?_, ?_⟩ <;>
    · intro n k em a i c tr ha hc
      have h1 : ¬ (n ≤ a) := by omega
      have h2 : ¬ (k ≤ c) := by omega
      simp [decodeStep, mkCfg, insertOutput, hd, h1, h2]

/-- Witness for C2 at concrete budget, ceiling, and state. -/
theorem calculator_error_policy_witness :
    decodeStep (mkCfg 10 5 .failSoft)
        ⟨[], 0, 0, 0, .IN_GADGET_INPUT, "1/0", false⟩ .gadgetClose =
      ⟨[.gadgetClose, .outOpen, .errorMarker, .outClose], 1, 3, 1,
       .GENERATING, "1/0", false⟩ ∧
    decodeStep (mkCfg 10 5 .failFast)
        ⟨[], 0, 0, 0, .IN_GADGET_INPUT, "1/0", false⟩ .gadgetClose =
      ⟨[.gadgetClose], 1, 0, 0, .ABORTED, "1/0", true⟩ :=
  ⟨calculator_error_policy.2.2.2.1 10 5 [] 0 0 0 false (by decide) (by decide),
   calculator_error_policy.2.2.2.2 10 5 [] 0 0 0 false (by decide) (by decide)⟩

/-- C3: for every configured token budget and every decoder run, the count of
model-authored tokens never exceeds the budget, however many gadget calls
occur; the output-insertion step accounts gadget-inserted tokens separately
and leaves the authored-token count unchanged. -/
theorem authored_budget_invariant :
    (∀ cfg st ts, st.authored_tokens ≤ cfg.maxTokens →
      (decodeRun cfg st ts).authored_tokens ≤ cfg.maxTokens) ∧
    (∀ cfg ts, (decodeRun cfg initState ts).authored_tokens ≤ cfg.maxTokens) ∧
    (∀ st o, (insertOutput st o).authored_tokens = st.authored_tokens ∧
      (insertOutput st o).inserted_tokens = st.inserted_tokens + 3) := by
  refine ⟨fun cfg st ts h => run_authored_le cfg st ts h,
    fun cfg ts => run_authored_le cfg initState ts (Nat.zero_le _),
    fun st o => ⟨rfl, rfl⟩⟩

/-- Witness for C3 at a concrete configuration and token stream. -/
theorem authored_budget_invariant_witness :
    (decodeRun (mkCfg 9 2 .failSoft) initState (tripleStream 3)).authored_tokens ≤ 9 :=
  authored_budget_invariant.1 (mkCfg 9 2 .failSoft) initState (tripleStream 3)
    (by decide)

/-- C4: the gadget-call count of every decoded sequence never exceeds the
configured ceiling `K`, and a sequence whose model keeps emitting gadget
invocations reaches the absorbing `ABORTED` state with `truncated = true`
after exactly `K` completed gadget calls, still carrying its partial emitted
text. -/
theorem gadget_ceiling_abort :
    (∀ cfg st ts, st.gadget_call_count ≤ cfg.maxGadgetCalls →
      (decodeRun cfg st ts).gadget_call_count ≤ cfg.maxGadgetCalls) ∧
    (∀ (N K : Nat) (pol : ErrorPolicy), 3 * (K + 1) ≤ N →
      (decodeRun (mkCfg N K pol) initState (tripleStream K ++ gadgetTriple)).phase
          = .ABORTED ∧
      (decodeRun (mkCfg N K pol) initState (tripleStream K ++ gadgetTriple)).truncated
          = true ∧
      (decodeRun (mkCfg N K pol) initState (tripleStream K ++ gadgetTriple)).gadget_call_count
          = K ∧
      (decodeRun (mkCfg N K pol) initState (tripleStream K ++ gadgetTriple)).emitted
          ≠ [] ∧
      ∀ extra,
        decodeRun (mkCfg N K pol)
          (decodeRun (mkCfg N K pol) initState (tripleStream K ++ gadgetTriple)) extra
        = decodeRun (mkCfg N K pol) initState (tripleStream K ++ gadgetTriple)) := by
  refine ⟨fun cfg st ts h => run_count_le cfg st ts h, ?_⟩
  intro N K pol hN
  obtain ⟨hph2, hc2, ha2, htr2, suf, hem2⟩ :=
    triples_reach N K pol K initState rfl (by simp [initState])
      (by simp [initState]; omega)
  rw [decodeRun_append]
  have habort := triple_abort N K pol
    (decodeRun (mkCfg N K pol) initState (tripleStream K)) hph2
    (by rw [hc2]; simp [initState]) (by rw [ha2]; simp [initState]; omega)
  rw [habort]
  refine ⟨rfl, rfl, ?_, ?_, ?_⟩
  · show (decodeRun (mkCfg N K pol) initState (tripleStream K)).gadget_call_count = K
    rw [hc2]
    simp [initState]
  · show (decodeRun (mkCfg N K pol) initState (tripleStream K)).emitted ++
      [GTok.gadgetOpen, GTok.ord "2", GTok.gadgetClose] ≠ []
    simp
  · intro extra
    exact run_terminal _ _ (Or.inr rfl) extra

/-- Witness for C4 with ceiling 2 and budget 9. -/
theorem gadget_ceiling_abort_witness :
    (decodeRun (mkCfg 9 2 .failSoft) initState (tripleStream 2 ++ gadgetTriple)).phase
        = .ABORTED ∧
    (decodeRun (mkCfg 9 2 .failSoft) initState (tripleStream 2 ++ gadgetTriple)).gadget_call_count
        = 2 :=
  ⟨(gadget_ceiling_abort.2 9 2 .failSoft (by decide)).1,
   (gadget_ceiling_abort.2 9 2 .failSoft (by decide)).2.2.1⟩

/-! ### Pipeline, metrics, and script theorems -/

theorem pp_counts {α β : Type} (p : α → Option β) :
    ∀ rs, (parsePipeline p rs).2 = (rs.filter fun r => (p r).isNone).length ∧
      (parsePipeline p rs).1.length + (parsePipeline p rs).2 = rs.length := by
  intro rs
  induction rs with
  | nil => exact ⟨rfl, rfl⟩
  | cons r rs ih =>
    cases hr : p r <;> simp [parsePipeline, hr, ih.1] <;> omega

theorem pp_local {α β : Type} (p : α → Option β) (bad : α) (hbad : p bad = none) :
    ∀ xs ys, parsePipeline p (xs ++ bad :: ys) =
      ((parsePipeline p (xs ++ ys)).1, (parsePipeline p (xs ++ ys)).2 + 1) := by
  intro xs ys
  induction xs with
  | nil => simp [parsePipeline, hbad]
  | cons x xs ih =>
    cases hx : p x <;> simp [parsePipeline, hx, ih]

/-- C5: for every declared ordered group list and every evaluation batch
whose total example count differs from the sum of the declared group
lengths, `metricsEvaluate` fails with `GroupLengthMismatchError` whatever
the scoring function is — so no example is scored. -/
theorem metrics_group_mismatch :
    ∀ (α : Type) (groups : List DatasetGroup) (batch : List α),
      (groups.map DatasetGroup.length).sum ≠ batch.length →
      ∀ score, metricsEvaluate score groups batch =
        .error .GroupLengthMismatchError := by
  intro α groups batch h score
  simp [metricsEvaluate, h]

/-- Witness for C5: groups gsm/100 and aqua/50 against a batch of 149. -/
theorem metrics_group_mismatch_witness :
    metricsEvaluate (fun _ => true) [⟨"gsm", 100⟩, ⟨"aqua", 50⟩]
      (List.replicate 149 (0 : Nat)) = .error .GroupLengthMismatchError :=
  metrics_group_mismatch Nat [⟨"gsm", 100⟩, ⟨"aqua", 50⟩]
    (List.replicate 149 0) (by decide) (fun _ => true)

/-- C6: a raw record whose parse fails is dropped alone — removing it from
the input changes only the dropped count, never the parsed output of the
other records — the dropped count equals the number of unparseable records,
and kept plus dropped exhaust the input, so the pipeline run never fails as
a whole. -/
theorem parser_drop_local :
    ∀ (α β : Type) (p : α → Option β) (xs ys : List α) (bad : α),
      p bad = none →
      (parsePipeline p (xs ++ bad :: ys) =
        ((parsePipeline p (xs ++ ys)).1, (parsePipeline p (xs ++ ys)).2 + 1)) ∧
      (∀ rs, (parsePipeline p rs).2 =
          (rs.filter fun r => (p r).isNone).length ∧
        (parsePipeline p rs).1.length + (parsePipeline p rs).2 = rs.length) :=
  fun _ _ p xs ys bad hbad => ⟨pp_local p bad hbad xs ys, pp_counts p⟩

def pwDemo : Nat → Option Nat := fun n => if n = 0 then none else some n

/-- Witness for C6 on a concrete parser and record list. -/
theorem parser_drop_local_witness :
    parsePipeline pwDemo ([1] ++ 0 :: [2]) =
      ((parsePipeline pwDemo ([1] ++ [2])).1,
       (parsePipeline pwDemo ([1] ++ [2])).2 + 1) :=
  (parser_drop_local Nat Nat pwDemo [1] [2] 0 (by decide)).1

/-- C7: `aquaParse` on the raw record whose rationale contains
`Profit = 20 <gadget>100*0.2</gadget> ... answer: B` yields an `Example`
whose rationale contains exactly one `GadgetCall` with input text `100*0.2`
and output text `20.0`, and whose final answer is `B`. -/
theorem aqua_parse_example :
    rationaleCalls (aquaParse aquaDemoRaw) =
      [⟨"Calculator", "100*0.2", some "20.0", true⟩] ∧
    (aquaParse aquaDemoRaw).final_answer = "B" := by
  exact ⟨by decide, rfl⟩

theorem isPre_iff (pat s : List Char) :
    isPre pat s = true ↔ ∃ r, s = pat ++ r := by
  constructor
  · intro h
    exact ⟨s.drop pat.length, isPre_decomp pat s h⟩
  · rintro ⟨r, rfl⟩
    exact isPre_append pat r

theorem containsSub_iff (pat : List Char) :
    ∀ hay, containsSub pat hay = true ↔ ∃ l r, hay = l ++ pat ++ r := by
  intro hay
  induction hay with
  | nil =>
    constructor
    · intro h
      cases pat with
      | nil => exact ⟨[], [], rfl⟩
      | cons a as => simp [containsSub, isPre] at h
    · rintro ⟨l, r, hlr⟩
      have h1 := List.append_eq_nil.mp hlr.symm
      have h2 := List.append_eq_nil.mp h1.1
      simp [containsSub, h2.2, isPre]
  | cons c cs ih =>
    simp only [containsSub, Bool.or_eq_true, ih, isPre_iff]
    constructor
    · rintro (⟨r, hr⟩ | ⟨l, r, hlr⟩)
      · exact ⟨[], r, by simpa using hr⟩
      · exact ⟨c :: l, r, by simp [hlr]⟩
    · rintro ⟨l, r, hlr⟩
      cases l with
      | nil => exact Or.inl ⟨r, by simpa using hlr⟩
      | cons x l2 =>
        simp only [List.cons_append, List.cons.injEq] at hlr
        exact Or.inr ⟨l2, r, hlr.2⟩

theorem nameMatches_iff (scheme : List String) (n : String) :
    nameMatches scheme n = true ↔
      ∃ t ∈ scheme, ∃ l r, n.toList = l ++ t.toList ++ r := by
  simp [nameMatches, List.any_eq_true, containsSub_iff]

theorem partialFinetune_form (scheme : List String) :
    ∀ ps, partialFinetune scheme ps =
      ps.map fun p => ⟨p.name, nameMatches scheme p.name⟩ := by
  intro ps
  induction ps with
  | nil => rfl
  | cons p ps ih =>
    cases hnm : nameMatches scheme p.name <;>
      simp_all [partialFinetune, freezeAll, enableScheme, hnm]

/-- C8: when `--finetune_whole_model` is false, after the freeze-then-enable
loops every model parameter has `requires_grad` true exactly when its name
contains one of the substrings of the scheme selected by
`--finetune_percent`, and no parameter name is altered. -/
theorem partial_finetune_grads :
    ∀ percent scheme ps, finetuning_schemes percent = some scheme →
      ((partialFinetune scheme ps).map ModelParam.name = ps.map ModelParam.name) ∧
      ∀ q ∈ partialFinetune scheme ps,
        (q.requires_grad = true ↔
          ∃ t ∈ scheme, ∃ l r, q.name.toList = l ++ t.toList ++ r) := by
  intro percent scheme ps _
  rw [partialFinetune_form]
  constructor
  · rw [List.map_map]
    rfl
  · intro q hq
    obtain ⟨p, _, rfl⟩ := List.mem_map.mp hq
    exact nameMatches_iff scheme p.name

def psDemo : List ModelParam :=
  [⟨"encoder.block.0.layer.0.SelfAttention.v.weight", false⟩,
   ⟨"shared.weight", true⟩]

/-- Witness for C8 at the 10 percent scheme and a concrete parameter
list. -/
theorem partial_finetune_grads_witness :
    (⟨"encoder.block.0.layer.0.SelfAttention.v.weight", true⟩
        : ModelParam).requires_grad = true ↔
      ∃ t ∈ scheme10, ∃ l r,
        (⟨"encoder.block.0.layer.0.SelfAttention.v.weight", true⟩
          : ModelParam).name.toList = l ++ t.toList ++ r :=
  (partial_finetune_grads 10 scheme10 psDemo rfl).2
    ⟨"encoder.block.0.layer.0.SelfAttention.v.weight", true⟩ (by decide)

theorem lookup_eq_none_of_not_mem {V : Type} (l : List (String × V)) (a : String)
    (h : a ∉ l.map Prod.fst) : l.lookup a = none := by
  induction l with
  | nil => rfl
  | cons kv l ih =>
    rcases kv with ⟨k, v⟩
    simp only [List.map_cons, List.mem_cons, not_or] at h
    have hk : (a == k) = false := beq_eq_false_iff_ne.mpr h.1
    simp [List.lookup, hk, ih h.2]

theorem lookup_mem {V : Type} (l : List (String × V)) (a : String)
    (h : a ∈ l.map Prod.fst) : ∃ v, l.lookup a = some v := by
  induction l with
  | nil => simp at h
  | cons kv l ih =>
    rcases kv with ⟨k, v⟩
    by_cases hk : a = k
    · subst hk
      exact ⟨v, by simp [List.lookup]⟩
    · have hk2 : (a == k) = false := beq_eq_false_iff_ne.mpr hk
      simp only [List.map_cons, List.mem_cons] at h
      rcases h with h | h
      · exact absurd h hk
      · obtain ⟨w, hw⟩ := ih h
        exact ⟨w, by simp [List.lookup, hk2, hw]⟩

/-- C9: for every parsed-argument namespace holding exactly the registered
argument names, the script raises `AttributeError` at the `wandb.init`
call — reading the never-registered `wandb_tags` — and so never reaches
training or evaluation. -/
theorem wandb_attribute_error :
    ∀ (V : Type) (truthy : V → Bool) (ns : List (String × V)),
      ns.map Prod.fst = registeredArgs →
      scriptRun truthy ns = .raised (.attributeError "wandb_tags") := by
  intro V truthy ns h
  have hmem : ∀ a, a ∈ registeredArgs → ∃ v, ns.lookup a = some v := by
    intro a ha
    exact lookup_mem ns a (by rw [h]; exact ha)
  obtain ⟨v1, h1⟩ := hmem "model_name" (by decide)
  obtain ⟨v2, h2⟩ := hmem "gradient_checkpointing" (by decide)
  obtain ⟨v3, h3⟩ := hmem "finetune_whole_model" (by decide)
  obtain ⟨v4, h4⟩ := hmem "finetune_percent" (by decide)
  have hw : ns.lookup "wandb_tags" = none :=
    lookup_eq_none_of_not_mem ns _ (by rw [h]; decide)
  unfold scriptRun scriptReads
  cases hb : truthy v3 <;>
    simp [getattrNS, h1, h2, h3, h4, hw, hb, bind, Except.bind, pure, Except.pure]

/-- Witness for C9 on a concrete namespace with the registered names. -/
theorem wandb_attribute_error_witness :
    scriptRun (fun v => v != 0) (registeredArgs.map fun a => (a, (0 : Nat))) =
      .raised (.attributeError "wandb_tags") :=
  wandb_attribute_error Nat (fun v => v != 0)
    (registeredArgs.map fun a => (a, (0 : Nat))) (by decide)

/-- C10: two invocations differing only in `--seed` produce identical script
effects, and every seed the script actually uses is the constant 42 — the
parsed `--seed` value is never read. -/
theorem seed_noninterference :
    ∀ (a : Args) (s : Int),
      scriptEffects { a with seed := s } = scriptEffects a ∧
      (scriptEffects a).set_seed_arg = 42 ∧
      (scriptEffects a).split_seed = 42 ∧
      (scriptEffects a).rng_seed = 42 :=
  fun _ _ => ⟨rfl, rfl, rfl, rfl⟩
